import Mathlib

/-!
Shallow embedding of the `linky` link checker (`src/main.rs`) and, for the
parts of the crate that live in the missing `linky.rs` / `errors.rs` modules,
definitions modelled from the specification.  The orchestrator (`main`), the
stdin triple parser, the fetch cache and the per-record output logic are
translated directly from `src/main.rs`; external effects (the HTTP client,
the filesystem, `Link::parse_with_root`) are oracles passed in as functions.
-/

set_option autoImplicit false

namespace Linky

/-- Modelled from the spec: `linky::Tag` (linky.rs is not under src/).
A closed enumeration of outcome classifications with stable display names,
usable both in output and as mute-filter tokens (spec section 4.5). -/
inductive Tag where
  | fetchFailure
  | redirectNotFollowed
  | fragmentEmpty
  | fragmentNotFound
  | parseError
  deriving DecidableEq

/-- Modelled from the spec: the stable display string of a `Tag`
(spec section 4.5: "stable names usable both in diagnostic output and as
command-line mute tokens"). -/
def Tag.display : Tag → String
  | .fetchFailure => "fetch-failure"
  | .redirectNotFollowed => "redirect-not-followed"
  | .fragmentEmpty => "fragment-empty"
  | .fragmentNotFound => "fragment-not-found"
  | .parseError => "parse-error"

/-- Modelled from the spec: `errors::LinkError` (errors.rs is not under src/).
An error value forming a finite acyclic cause chain; each node has a
one-line display message (spec section 3). -/
inductive LinkError where
  | leaf (msg : String)
  | wrap (msg : String) (cause : LinkError)
  deriving DecidableEq

/-- The one-line display message of the head of a cause chain. -/
def LinkError.headMsg : LinkError → String
  | .leaf m => m
  | .wrap m _ => m

/-- Modelled from the spec: `LinkError::new(base, cause)` wraps an underlying
cause with a message naming the base target (spec section 3: "an error value
associated with a specific base target, wrapping an underlying cause"). -/
def linkErrorNew (base : String) (cause : LinkError) : LinkError :=
  .wrap ("in link: " ++ base) cause

/-- The diagnostic lines for the `cause()` walk of a chain, one line per
underlying cause, as printed by the loop at src/main.rs lines 148-152. -/
def LinkError.causeLines : LinkError → List String
  | .leaf _ => []
  | .wrap _ c => ("  caused by: " ++ c.headMsg) :: c.causeLines

/-- All diagnostic lines for one reported error: the `warn!("error: {}")`
line followed by the `caused by` walk (src/main.rs lines 147-152). -/
def chainLines (e : LinkError) : List String :=
  ("error: " ++ e.headMsg) :: e.causeLines

/-- `linky::Targets`: the memoized result of fetching one base, either the
list of anchor ids or a fetch failure carrying a `Tag` and a `LinkError`
(the `Result` stored in `all_targets` in src/main.rs lines 121-131). -/
abbrev Targets := Except (Tag × LinkError) (List String)

deriving instance DecidableEq for Except

/-- Modelled from the spec: `linky::lookup_fragment` (linky.rs is not under
src/).  Matches a requested fragment against the anchor-id list under the
configured prefix policy and classifies the outcome (spec section 4.4). -/
def lookup_fragment (ids : List String) (fragment : Option String)
    (prefixes : List String) : Except (Tag × String) Unit :=
  match fragment with
  | none => .ok ()
  | some f =>
    if f = "" then
      .error (Tag.fragmentEmpty, "empty fragment")
    else if ids.contains f then
      .ok ()
    else if prefixes.any (fun p => ids.contains (p ++ f)) then
      .ok ()
    else
      .error (Tag.fragmentNotFound, "fragment not found: " ++ f)

/-! ## The stdin triple format (src/main.rs lines 77-92)

The alternate input mode matches every stdin line against the anchored
regex `^(.*):(\d+): [^ ]* ([^ ]*)$` and unwraps the match.  The matcher
below reproduces the regex's greedy capture semantics on `List Char`:
the tail after a candidate `:` is matched deterministically (each greedy
sub-pattern there is followed by a character its class excludes, so maximal
munch is exact), and among the candidate `:` splits the rightmost matching
one wins, which is what the greedy leading `(.*)` produces. -/

/-- Matches `(\d+): [^ ]* ([^ ]*)$` against the characters following the
chosen `:`, returning the digit capture and the final capture. -/
def matchTail (rest : List Char) : Option (List Char × List Char) :=
  let d := rest.takeWhile Char.isDigit
  let r2 := rest.dropWhile Char.isDigit
  if d.isEmpty then none
  else
    match r2 with
    | ':' :: ' ' :: r3 =>
      let r4 := r3.dropWhile (fun c => c != ' ')
      match r4 with
      | ' ' :: r5 => if r5.all (fun c => c != ' ') then some (d, r5) else none
      | _ => none
    | _ => none

/-- Tries every split `s = cap1 ++ ':' :: rest`, preferring the rightmost
(matching the greedy `(.*)`), and returns `(cap1, cap2, cap3)`. -/
def parseLineAux : List Char → Option (List Char × List Char × List Char)
  | [] => none
  | c :: cs =>
    match parseLineAux cs with
    | some (a, d, l) => some (c :: a, d, l)
    | none =>
      if c = ':' then
        (matchTail cs).map (fun p => ([], p.1, p.2))
      else
        none

/-- `re.captures(line)` for `^(.*):(\d+): [^ ]* ([^ ]*)$`: the three
captures (path, line-number digits, link), or `none` when the line does
not match (src/main.rs lines 78-85). -/
def parseLine (s : String) : Option (String × String × String) :=
  match parseLineAux s.data with
  | some (a, d, l) => some (String.mk a, String.mk d, String.mk l)
  | none => none

/-- The largest value of Rust's `usize` on the 64-bit targets linky is
built for; `lineno.parse::<usize>()` fails above it. -/
def USIZE_MAX : Nat := 2 ^ 64 - 1

/-- The numeric value of a digit string. -/
def natOfDigits (l : List Char) : Nat :=
  l.foldl (fun a c => a * 10 + (c.toNat - '0'.toNat)) 0

/-- `lineno.parse::<usize>()` on a capture already known to be digits:
fails exactly when the value exceeds `usize::MAX` (src/main.rs line 89). -/
def parseUsize (s : String) : Option Nat :=
  let n := natOfDigits s.data
  if n ≤ USIZE_MAX then some n else none

/-- The stdin reading loop of the alternate input mode (src/main.rs lines
77-92).  Each element of `lines` is `none` for an I/O error (which
`line.unwrap()` turns into a panic) and `some s` for a read line; the
whole run aborts (`none`) when a line read fails, fails to match the
pattern (`re.captures(..).unwrap()`), or has an unrepresentable line
number (`lineno.parse().unwrap()`). -/
def readStdinLinks : List (Option String) → Option (List (String × Nat × String))
  | [] => some []
  | none :: _ => none
  | some line :: rest =>
    match parseLine line with
    | none => none
    | some (p, d, l) =>
      match parseUsize d with
      | none => none
      | some n => (readStdinLinks rest).map (fun ts => (p, n, l) :: ts)

/-! ## The orchestrator (src/main.rs lines 101-164) -/

/-- The per-link `Record` of src/main.rs lines 114-119. -/
structure Record where
  path : String
  linenum : Nat
  tag : Option Tag
  link : String
  deriving DecidableEq

/-- The report line printed for a record: `println!("{}:{}: {} {}")` with
the tag display or the empty string (src/main.rs lines 154-162). -/
def formatRecord (r : Record) : String :=
  r.path ++ ":" ++ Nat.repr r.linenum ++ ": " ++
    (match r.tag with
     | some t => t.display
     | none => "") ++ " " ++ r.link

/-- `HashMap::get` on the fetch cache, embedded as first-match lookup in an
association list keyed by the base string. -/
def assocFind (b : String) : List (String × Targets) → Option Targets
  | [] => none
  | (k, v) :: rest => if k = b then some v else assocFind b rest

/-- The classification of one link against its (cached) `Targets` value:
`.as_ref().map_err(..).and_then(|ids| lookup_fragment(..))` of src/main.rs
lines 130-135.  A fetch failure propagates its own tag and error; on
success the fragment lookup result is wrapped via `LinkError::new`. -/
def classify (prefixes : List String) (base : String)
    (fragment : Option String) (t : Targets) : Option (Tag × Option LinkError) :=
  match t with
  | .error (tag, err) => some (tag, some err)
  | .ok ids =>
    match lookup_fragment ids fragment prefixes with
    | .ok _ => none
    | .error (tag, m) => some (tag, some (linkErrorNew base (.leaf m)))

/-- Whether a `Targets` value is a successful fetch. -/
def targetsOk (t : Targets) : Bool :=
  match t with
  | .ok _ => true
  | .error _ => false

/-- The cache interaction plus classification for one link in check mode:
`all_targets.entry(base).or_insert_with(|| client.fetch_targets(&base))`
followed by `classify` (src/main.rs lines 127-135).  Returns the
classification, the updated cache, the list of fetch events performed
(instrumentation for the at-most-once guarantee), and whether
`lookup_fragment` was invoked (instrumentation for the masking claim). -/
def resolveLink (fetch : String → Targets) (prefixes : List String)
    (cache : List (String × Targets)) (base : String) (fragment : Option String) :
    Option (Tag × Option LinkError) × List (String × Targets) × List String × Bool :=
  match assocFind base cache with
  | some t => (classify prefixes base fragment t, cache, [], targetsOk t)
  | none =>
    let t := fetch base
    (classify prefixes base fragment t, cache ++ [(base, t)], [base], targetsOk t)

/-- The mute test of src/main.rs line 145:
`record.tag.as_ref().map_or(false, |tag| silence.contains(&tag))`. -/
def mutedRecord (silence : List Tag) (r : Record) : Bool :=
  match r.tag with
  | some tag => decide (tag ∈ silence)
  | none => false

/-- The mute filter and per-record output of src/main.rs lines 145-163:
a record whose tag is in the mute set produces nothing on either stream;
otherwise the cause chain (when an error is present) goes to the
diagnostic stream and exactly one report line is printed.  Returns
(report lines, diagnostic lines). -/
def emit (silence : List Tag) (r : Record)
    (tae : Option (Tag × Option LinkError)) : List String × List String :=
  if mutedRecord silence r then ([], [])
  else
    let ds :=
      match tae with
      | some (_, some err) => chainLines err
      | _ => []
    ([formatRecord r], ds)

/-- The run-wide configuration threaded through the orchestrator: the
optional HTTP client (present exactly in `--check` mode, reduced to its
`fetch_targets` capability), the `Link::parse_with_root` + `split_fragment`
oracle (linky.rs is not under src/), and the parsed command-line options. -/
structure Ctx where
  client : Option (String → Targets)
  parse : String → String → String → Except String (String × Option String)
  root : String
  prefixes : List String
  silence : List Tag

/-- Whether a raw triple survives the parse stage of src/main.rs lines
101-112 (its raw link parses under `Link::parse_with_root`). -/
def parseOk (ctx : Ctx) (t : String × Nat × String) : Bool :=
  match ctx.parse t.2.2 t.1 ctx.root with
  | .ok _ => true
  | .error _ => false

/-- The observable outcome of (a suffix of) a run: report lines in print
order, diagnostic lines in log order, fetch events in order, the final
cache, and the records constructed, in order. -/
structure RunOut where
  reports : List String
  diags : List String
  fetched : List String
  cache : List (String × Targets)
  records : List Record
  deriving DecidableEq

/-- Processing of one raw input triple: the parse stage of src/main.rs
lines 101-112 (a parse failure is logged and the link dropped) followed by
the check/report loop body of lines 122-163. -/
def stepTriple (ctx : Ctx) (cache : List (String × Targets))
    (t : String × Nat × String) : RunOut :=
  match t with
  | (path, n, raw) =>
    match ctx.parse raw path ctx.root with
    | .error e =>
      ⟨[], [path ++ ":" ++ Nat.repr n ++ ": " ++ e ++ ": " ++ raw], [], cache, []⟩
    | .ok (base, fragment) =>
      match ctx.client with
      | none =>
        let r : Record := ⟨path, n, none, raw⟩
        let out := emit ctx.silence r none
        ⟨out.1, out.2, [], cache, [r]⟩
      | some fetch =>
        let res := resolveLink fetch ctx.prefixes cache base fragment
        let r : Record := ⟨path, n, res.1.map Prod.fst, raw⟩
        let out := emit ctx.silence r res.1
        ⟨out.1, out.2, res.2.2.1, res.2.1, [r]⟩

/-- The whole orchestrator loop over the input triples, threading the fetch
cache and concatenating the observable streams (src/main.rs lines 101-164). -/
def run (ctx : Ctx) (cache : List (String × Targets)) :
    List (String × Nat × String) → RunOut
  | [] => ⟨[], [], [], cache, []⟩
  | t :: ts =>
    let o1 := stepTriple ctx cache t
    let o2 := run ctx o1.cache ts
    ⟨o1.reports ++ o2.reports, o1.diags ++ o2.diags,
     o1.fetched ++ o2.fetched, o2.cache, o1.records ++ o2.records⟩

/-! ## Basic cache lemmas -/

theorem assocFind_append_some {b : String} {c : List (String × Targets)}
    {v : Targets} (d : List (String × Targets)) (h : assocFind b c = some v) :
    assocFind b (c ++ d) = some v := by
  induction c with
  | nil => simp [assocFind] at h
  | cons kv rest ih =>
    obtain ⟨k, w⟩ := kv
    by_cases hk : k = b
    · simp [assocFind, hk] at h
      simp [assocFind, hk, h]
    · simp [assocFind, hk] at h
      simpa [assocFind, hk] using ih h

theorem assocFind_append_singleton_self {b : String}
    {c : List (String × Targets)} (t : Targets) (h : assocFind b c = none) :
    assocFind b (c ++ [(b, t)]) = some t := by
  induction c with
  | nil => simp [assocFind]
  | cons kv rest ih =>
    obtain ⟨k, w⟩ := kv
    by_cases hk : k = b
    · simp [assocFind, hk] at h
    · simp [assocFind, hk] at h
      simpa [assocFind, hk] using ih h

/-! ## C2: fetch failures mask fragment resolution -/

/-- C2: when the cached `Targets` for a base is a fetch failure, resolving
any link with that base performs no fetch, never invokes `lookup_fragment`
(last component `false`), and reports exactly the cached failure's `Tag`
and error, independently of the link's fragment — so every input link
sharing the failing base gets the same fetch-failure classification. -/
theorem fetch_failure_masks_fragment (fetch : String → Targets)
    (prefixes : List String) (cache : List (String × Targets)) (base : String)
    (fragment : Option String) (tag : Tag) (err : LinkError)
    (h : assocFind base cache = some (Except.error (tag, err))) :
    resolveLink fetch prefixes cache base fragment =
      (some (tag, some err), cache, [], false) := by
  simp [resolveLink, h, classify, targetsOk]

/-- Witness for C2 at a concrete cached fetch failure. -/
theorem fetch_failure_masks_fragment_witness :
    resolveLink (fun _ => Except.ok []) []
        [("u", Except.error (Tag.fetchFailure, LinkError.leaf "down"))]
        "u" (some "frag") =
      (some (Tag.fetchFailure, some (LinkError.leaf "down")),
       [("u", Except.error (Tag.fetchFailure, LinkError.leaf "down"))], [], false) :=
  fetch_failure_masks_fragment (fun _ => Except.ok []) [] _ "u" (some "frag")
    Tag.fetchFailure (LinkError.leaf "down") rfl

/-! ## C3: the fragment lookup rules -/

/-- C3: `lookup_fragment` is OK on an absent fragment; classifies the empty
fragment with the distinct fragment-empty tag; is OK on a verbatim match or
on a configured-prefix match; and otherwise fails with fragment-not-found. -/
theorem lookup_fragment_rules (ids prefixes : List String) :
    (lookup_fragment ids none prefixes = .ok ())
    ∧ (lookup_fragment ids (some "") prefixes =
        .error (Tag.fragmentEmpty, "empty fragment"))
    ∧ (∀ f, f ≠ "" → (f ∈ ids ∨ ∃ p, p ∈ prefixes ∧ (p ++ f) ∈ ids) →
        lookup_fragment ids (some f) prefixes = .ok ())
    ∧ (∀ f, f ≠ "" → f ∉ ids → (∀ p, p ∈ prefixes → (p ++ f) ∉ ids) →
        lookup_fragment ids (some f) prefixes =
          .error (Tag.fragmentNotFound, "fragment not found: " ++ f)) := by
  refine ⟨rfl, rfl, ?_, ?_⟩
  · intro f hne hmem
    rcases hmem with hmem | ⟨p, hp, hmem⟩
    · simp [lookup_fragment, hne, hmem]
    · by_cases hin : f ∈ ids
      · simp [lookup_fragment, hne, hin]
      · have hex : ∃ x ∈ prefixes, x ++ f ∈ ids := ⟨p, hp, hmem⟩
        simp [lookup_fragment, hne, hin, hex]
  · intro f hne hnmem hnpref
    have hex : ¬ ∃ x ∈ prefixes, x ++ f ∈ ids := by
      rintro ⟨x, hx, hmem⟩
      exact hnpref x hx hmem
    simp [lookup_fragment, hne, hnmem, hex]

/-- Witness for C3 on the spec's example anchor set: a prefix match, an
exact match, and a not-found fragment. -/
theorem lookup_fragment_rules_witness :
    lookup_fragment ["intro", "user-content-setup"] (some "setup")
        ["user-content-"] = .ok ()
    ∧ lookup_fragment ["intro", "user-content-setup"] (some "intro")
        ["user-content-"] = .ok ()
    ∧ lookup_fragment ["intro", "user-content-setup"] (some "missing")
        ["user-content-"] =
        .error (Tag.fragmentNotFound, "fragment not found: missing") :=
  ⟨(lookup_fragment_rules ["intro", "user-content-setup"]
      ["user-content-"]).2.2.1 "setup" (by decide)
      (Or.inr ⟨"user-content-", by decide, by decide⟩),
   (lookup_fragment_rules ["intro", "user-content-setup"]
      ["user-content-"]).2.2.1 "intro" (by decide) (Or.inl (by decide)),
   (lookup_fragment_rules ["intro", "user-content-setup"]
      ["user-content-"]).2.2.2 "missing" (by decide) (by decide) (by decide)⟩

/-! ## C4: the mute filter -/

/-- C4: a record whose tag is in the mute set produces no output at all
(no report line and no cause-chain diagnostic); a record whose tag is not
muted produces exactly one report line, and that line contains the tag's
display name as a substring. -/
theorem mute_filter_total_suppression (silence : List Tag) (p : String)
    (n : Nat) (raw : String) (tag : Tag) (e : Option LinkError) :
    (tag ∈ silence →
      emit silence ⟨p, n, some tag, raw⟩ (some (tag, e)) = ([], []))
    ∧ (tag ∉ silence →
      (emit silence ⟨p, n, some tag, raw⟩ (some (tag, e))).1 =
          [formatRecord ⟨p, n, some tag, raw⟩]
        ∧ (tag.display).data <:+: (formatRecord ⟨p, n, some tag, raw⟩).data) := by
  constructor
  · intro h
    simp [emit, mutedRecord, h]
  · intro h
    constructor
    · simp [emit, mutedRecord, h]
    · exact ⟨(p ++ ":" ++ Nat.repr n ++ ": ").data, (" " ++ raw).data, by
        simp [formatRecord, String.data_append]⟩

/-- Witness for C4: a muted tag yields no output; the same record under an
empty mute set yields exactly its one report line. -/
theorem mute_filter_total_suppression_witness :
    emit [Tag.fragmentEmpty] ⟨"a.md", 3, some Tag.fragmentEmpty, "x#"⟩
        (some (Tag.fragmentEmpty, none)) = ([], [])
    ∧ (emit [] ⟨"a.md", 3, some Tag.fragmentEmpty, "x#"⟩
        (some (Tag.fragmentEmpty, none))).1 =
        [formatRecord ⟨"a.md", 3, some Tag.fragmentEmpty, "x#"⟩] :=
  ⟨(mute_filter_total_suppression [Tag.fragmentEmpty] "a.md" 3 "x#"
      Tag.fragmentEmpty none).1 (by decide),
   ((mute_filter_total_suppression [] "a.md" 3 "x#"
      Tag.fragmentEmpty none).2 (by decide)).1⟩

/-! ## C9: untagged records are never muted -/

/-- C9: a record with no classification tag is always reported — for every
mute set the report line is emitted and no diagnostics are produced, so the
mute filter can only suppress records that carry a `Tag`. -/
theorem untagged_record_always_reported (silence : List Tag) (p : String)
    (n : Nat) (raw : String) :
    emit silence ⟨p, n, none, raw⟩ none =
      ([formatRecord ⟨p, n, none, raw⟩], []) := rfl

/-! ## Soundness of the stdin line matcher -/

theorem matchTail_sound (rest d l : List Char)
    (h : matchTail rest = some (d, l)) :
    ∃ t, rest = d ++ ':' :: ' ' :: (t ++ ' ' :: l)
      ∧ d ≠ [] ∧ d.all Char.isDigit
      ∧ t.all (fun c => c != ' ') ∧ l.all (fun c => c != ' ') := by
  rw [matchTail] at h
  split at h
  · cases h
  · rename_i hne
    split at h
    · rename_i r3 heq2
      dsimp only at h
      split at h
      · rename_i r5 heq4
        split at h
        · rename_i hall
          simp only [Option.some.injEq, Prod.mk.injEq] at h
          obtain ⟨hd, hl⟩ := h
          subst hd
          subst hl
          refine ⟨r3.takeWhile (fun c => c != ' '), ?_, ?_, ?_, ?_, ?_⟩
          · conv_lhs => rw [← List.takeWhile_append_dropWhile
              (p := Char.isDigit) (l := rest)]
            rw [heq2]
            congr 3
            conv_lhs => rw [← List.takeWhile_append_dropWhile
              (p := fun c => c != ' ') (l := r3)]
            rw [heq4]
          · intro hnil
            rw [hnil] at hne
            exact hne rfl
          · exact List.all_eq_true.mpr fun c hc =>
              List.mem_takeWhile_imp (p := Char.isDigit) hc
          · exact List.all_eq_true.mpr fun c hc =>
              List.mem_takeWhile_imp (p := fun c => c != ' ') hc
          · exact hall
        · cases h
      · cases h
    · cases h

theorem parseLineAux_sound (cs : List Char) :
    ∀ a d l, parseLineAux cs = some (a, d, l) →
    ∃ t, cs = a ++ ':' :: (d ++ ':' :: ' ' :: (t ++ ' ' :: l))
      ∧ d ≠ [] ∧ d.all Char.isDigit
      ∧ t.all (fun c => c != ' ') ∧ l.all (fun c => c != ' ') := by
  induction cs with
  | nil => intro a d l h; cases h
  | cons c cs ih =>
    intro a d l h
    rw [parseLineAux] at h
    split at h
    · rename_i a2 d2 l2 hrec
      simp only [Option.some.injEq, Prod.mk.injEq] at h
      obtain ⟨ha, hd, hl⟩ := h
      subst hd
      subst hl
      obtain ⟨t, hcs, hdn, hdd, ht, hlns⟩ := ih a2 d2 l2 hrec
      refine ⟨t, ?_, hdn, hdd, ht, hlns⟩
      rw [← ha]
      simpa using congrArg (List.cons c) hcs
    · rename_i hrec
      split at h
      · rename_i hc
        rcases hmt : matchTail cs with _ | ⟨dm, lm⟩
        · rw [hmt] at h
          cases h
        · rw [hmt] at h
          simp only [Option.map_some', Option.some.injEq, Prod.mk.injEq] at h
          obtain ⟨ha, hd, hl⟩ := h
          subst hd
          subst hl
          subst hc
          obtain ⟨t, hcs, hdn, hdd, ht, hlns⟩ := matchTail_sound cs dm lm hmt
          refine ⟨t, ?_, hdn, hdd, ht, hlns⟩
          rw [← ha]
          simpa using congrArg (List.cons ':') hcs
      · cases h

theorem readStdinLinks_append_none (xs ys : List (Option String))
    (h : readStdinLinks ys = none) : readStdinLinks (xs ++ ys) = none := by
  induction xs with
  | nil => simpa
  | cons o xs ih =>
    cases o with
    | none => rfl
    | some s =>
      rw [List.cons_append, readStdinLinks]
      cases hps : parseLine s with
      | none => rfl
      | some trip =>
        obtain ⟨p, dd, l⟩ := trip
        dsimp only
        cases hpu : parseUsize dd with
        | none => rfl
        | some n =>
          rw [ih]
          rfl

/-! ## C5: the alternate stdin input format -/

/-- C5: every stdin line accepted by the matcher for
`^(.*):(\d+): [^ ]* ([^ ]*)$` decomposes as
capture1 ++ ":" ++ digits ++ ": " ++ token ++ " " ++ capture3 with the
middle token discarded; the spec's example line yields the triple
(docs/a.md, 12, http://example.com); and a line the pattern rejects makes
the whole stdin run fail wherever it occurs. -/
theorem stdin_triple_format :
    (∀ s p d l, parseLine s = some (p, d, l) →
      ∃ t : List Char,
        s.data = p.data ++ ':' :: (d.data ++ ':' :: ' ' :: (t ++ ' ' :: l.data))
        ∧ d.data ≠ [] ∧ d.data.all Char.isDigit
        ∧ t.all (fun c => c != ' ') ∧ l.data.all (fun c => c != ' '))
    ∧ readStdinLinks [some "docs/a.md:12: x http://example.com"] =
        some [("docs/a.md", 12, "http://example.com")]
    ∧ (∀ line, parseLine line = none →
        ∀ pre post, readStdinLinks (pre ++ some line :: post) = none) := by
  refine ⟨?_, by decide, ?_⟩
  · intro s p d l h
    rw [parseLine] at h
    rcases haux : parseLineAux s.data with _ | ⟨a, dd, ll⟩
    · rw [haux] at h
      cases h
    · rw [haux] at h
      simp only [Option.some.injEq, Prod.mk.injEq] at h
      obtain ⟨hp, hd, hl⟩ := h
      subst hp
      subst hd
      subst hl
      obtain ⟨t, hcs, hdn, hdd, ht, hlns⟩ :=
        parseLineAux_sound s.data a dd ll haux
      exact ⟨t, hcs, hdn, hdd, ht, hlns⟩
  · intro line h pre post
    refine readStdinLinks_append_none pre (some line :: post) ?_
    rw [readStdinLinks, h]

/-- Witness for C5: a line the pattern rejects is fatal. -/
theorem stdin_triple_format_witness :
    readStdinLinks [some "not a triple"] = none :=
  stdin_triple_format.2.2 "not a triple" (by decide) [] []

/-! ## C10: matching the format does not guarantee survival -/

/-- C10: a stdin line that matches the pattern but whose line-number field
exceeds `usize::MAX` still aborts the whole run (the `parse().unwrap()`
panics), and an I/O error while reading any stdin line aborts the run. -/
theorem stdin_matching_line_can_abort :
    (parseLine "a.md:99999999999999999999: x y" =
        some ("a.md", "99999999999999999999", "y")
      ∧ readStdinLinks [some "a.md:99999999999999999999: x y"] = none)
    ∧ (∀ pre post, readStdinLinks (pre ++ none :: post) = none) :=
  ⟨⟨by decide, by decide⟩,
   fun pre post => readStdinLinks_append_none pre (none :: post) rfl⟩

/-! ## Unfolding the orchestrator loop -/

theorem run_cons (ctx : Ctx) (cache : List (String × Targets))
    (t : String × Nat × String) (ts : List (String × Nat × String)) :
    run ctx cache (t :: ts) =
      ⟨(stepTriple ctx cache t).reports ++
          (run ctx (stepTriple ctx cache t).cache ts).reports,
       (stepTriple ctx cache t).diags ++
          (run ctx (stepTriple ctx cache t).cache ts).diags,
       (stepTriple ctx cache t).fetched ++
          (run ctx (stepTriple ctx cache t).cache ts).fetched,
       (run ctx (stepTriple ctx cache t).cache ts).cache,
       (stepTriple ctx cache t).records ++
          (run ctx (stepTriple ctx cache t).cache ts).records⟩ := rfl

theorem stepTriple_cache_spec (ctx : Ctx) (cache : List (String × Targets))
    (t : String × Nat × String) :
    ((stepTriple ctx cache t).cache.map Prod.fst
        = cache.map Prod.fst ++ (stepTriple ctx cache t).fetched)
    ∧ (∀ b, b ∈ (stepTriple ctx cache t).fetched → assocFind b cache = none)
    ∧ (∀ b v, assocFind b cache = some v →
        assocFind b (stepTriple ctx cache t).cache = some v)
    ∧ (∀ b, b ∈ (stepTriple ctx cache t).fetched →
        ∃ v, assocFind b (stepTriple ctx cache t).cache = some v)
    ∧ (stepTriple ctx cache t).fetched.Nodup := by
  obtain ⟨path, n, raw⟩ := t
  cases hp : ctx.parse raw path ctx.root with
  | error e => simp [stepTriple, hp]
  | ok be =>
    obtain ⟨base, fragment⟩ := be
    cases hc : ctx.client with
    | none => simp [stepTriple, hp, hc]
    | some fetch =>
      cases hf : assocFind base cache with
      | some tv => simp [stepTriple, hp, hc, resolveLink, hf]
      | none =>
        simp only [stepTriple, hp, hc, resolveLink, hf]
        refine ⟨by simp, ?_, ?_, ?_, by simp⟩
        · intro b hb
          simp at hb
          rw [hb]
          exact hf
        · intro b v hv
          exact assocFind_append_some [(base, fetch base)] hv
        · intro b hb
          simp at hb
          rw [hb]
          exact ⟨fetch base, assocFind_append_singleton_self (fetch base) hf⟩

theorem run_cache_spec (ctx : Ctx) :
    ∀ (ts : List (String × Nat × String)) (cache : List (String × Targets)),
    ((run ctx cache ts).cache.map Prod.fst
        = cache.map Prod.fst ++ (run ctx cache ts).fetched)
    ∧ (∀ b, b ∈ (run ctx cache ts).fetched → assocFind b cache = none)
    ∧ (∀ b v, assocFind b cache = some v →
        assocFind b (run ctx cache ts).cache = some v)
    ∧ (∀ b, b ∈ (run ctx cache ts).fetched →
        ∃ v, assocFind b (run ctx cache ts).cache = some v)
    ∧ (run ctx cache ts).fetched.Nodup := by
  intro ts
  induction ts with
  | nil =>
    intro cache
    refine ⟨by simp [run], by simp [run], ?_, by simp [run], by simp [run]⟩
    intro b v hv
    simpa [run] using hv
  | cons t ts ih =>
    intro cache
    obtain ⟨h1, h2, h3, h4, h5⟩ := stepTriple_cache_spec ctx cache t
    obtain ⟨g1, g2, g3, g4, g5⟩ := ih (stepTriple ctx cache t).cache
    rw [run_cons]
    refine ⟨?_, ?_, ?_, ?_, ?_⟩
    · dsimp only
      rw [g1, h1, List.append_assoc]
    · intro b hb
      rcases List.mem_append.mp hb with hb | hb
      · exact h2 b hb
      · cases hv : assocFind b cache with
        | none => rfl
        | some v =>
          have := h3 b v hv
          rw [g2 b hb] at this
          cases this
    · intro b v hv
      exact g3 b v (h3 b v hv)
    · intro b hb
      rcases List.mem_append.mp hb with hb | hb
      · obtain ⟨v, hv⟩ := h4 b hb
        exact ⟨v, g3 b v hv⟩
      · exact g4 b hb
    · refine List.Nodup.append h5 g5 ?_
      intro b hb1 hb2
      obtain ⟨v, hv⟩ := h4 b hb1
      rw [g2 b hb2] at hv
      cases hv

/-! ## C1: the fetch cache performs each retrieval at most once -/

/-- C1: starting from an empty cache, the fetch events of a whole run are
pairwise distinct bases (the underlying retrieval happens at most once per
distinct base), the final cache holds exactly one `Targets` value per
fetched base, and a memoized entry is never replaced: any cached value is
still the value found for its base after processing any further links. -/
theorem fetch_targets_at_most_once :
    (∀ ctx ts, (run ctx [] ts).fetched.Nodup
      ∧ (run ctx [] ts).cache.map Prod.fst = (run ctx [] ts).fetched)
    ∧ (∀ ctx cache ts b v, assocFind b cache = some v →
        assocFind b (run ctx cache ts).cache = some v) :=
  ⟨fun ctx ts =>
    ⟨(run_cache_spec ctx ts []).2.2.2.2,
     by simpa using (run_cache_spec ctx ts []).1⟩,
   fun ctx cache ts b v h => (run_cache_spec ctx ts cache).2.2.1 b v h⟩

/-- Witness for C1's persistence part at a concrete cache and run. -/
theorem fetch_targets_at_most_once_witness :
    assocFind "b"
      (run ⟨none, fun l _ _ => Except.ok (l, none), "/", [], []⟩
        [("b", Except.ok ["x"])] [("p", 1, "l")]).cache =
      some (Except.ok ["x"]) :=
  fetch_targets_at_most_once.2
    ⟨none, fun l _ _ => Except.ok (l, none), "/", [], []⟩
    [("b", Except.ok ["x"])] [("p", 1, "l")] "b" (Except.ok ["x"]) rfl

/-! ## C6: one report line per unmuted parsed link, in input order -/

theorem stepTriple_reports_spec (ctx : Ctx) (cache : List (String × Targets))
    (t : String × Nat × String) :
    ((stepTriple ctx cache t).reports =
      ((stepTriple ctx cache t).records.filter
        (fun r => !mutedRecord ctx.silence r)).map formatRecord)
    ∧ ((stepTriple ctx cache t).records.map
        (fun r => (r.path, r.linenum, r.link))
        = if parseOk ctx t then [t] else []) := by
  obtain ⟨path, n, raw⟩ := t
  cases hp : ctx.parse raw path ctx.root with
  | error e => simp [stepTriple, hp, parseOk]
  | ok be =>
    obtain ⟨base, fragment⟩ := be
    cases hc : ctx.client with
    | none =>
      constructor
      · simp [stepTriple, hp, hc, emit, mutedRecord]
      · simp [stepTriple, hp, hc, parseOk]
    | some fetch =>
      constructor
      · cases hm : mutedRecord ctx.silence
          ⟨path, n, (resolveLink fetch ctx.prefixes cache base fragment).1.map
            Prod.fst, raw⟩ with
        | false => simp [stepTriple, hp, hc, emit, hm]
        | true => simp [stepTriple, hp, hc, emit, hm]
      · simp [stepTriple, hp, hc, parseOk]

theorem run_reports_spec (ctx : Ctx) :
    ∀ (ts : List (String × Nat × String)) (cache : List (String × Targets)),
    ((run ctx cache ts).reports =
      ((run ctx cache ts).records.filter
        (fun r => !mutedRecord ctx.silence r)).map formatRecord)
    ∧ ((run ctx cache ts).records.map (fun r => (r.path, r.linenum, r.link))
        = ts.filter (fun u => parseOk ctx u)) := by
  intro ts
  induction ts with
  | nil => intro cache; simp [run]
  | cons t ts ih =>
    intro cache
    obtain ⟨h1, h2⟩ := stepTriple_reports_spec ctx cache t
    obtain ⟨g1, g2⟩ := ih (stepTriple ctx cache t).cache
    rw [run_cons]
    constructor
    · dsimp only
      rw [List.filter_append, List.map_append, h1, g1]
    · dsimp only
      rw [List.map_append, h2, g2, List.filter_cons]
      cases hpo : parseOk ctx t <;> simp [hpo]

/-- C6: in every run the report stream is exactly the in-order sequence of
records (one per successfully-parsed input link, in input order, whatever
the cache held) restricted to the unmuted ones, each printed with
`formatRecord` — the `<path>:<line>: <tag-or-empty> <raw-link>` format. -/
theorem report_per_unmuted_link (ctx : Ctx) (cache : List (String × Targets))
    (ts : List (String × Nat × String)) :
    ((run ctx cache ts).reports =
      ((run ctx cache ts).records.filter
        (fun r => !mutedRecord ctx.silence r)).map formatRecord)
    ∧ ((run ctx cache ts).records.map (fun r => (r.path, r.linenum, r.link))
        = ts.filter (fun u => parseOk ctx u)) :=
  run_reports_spec ctx ts cache

/-! ## C7: no fetch happens outside check mode -/

/-- C7: with no client (check mode off) a run performs no fetch at all,
leaves the cache untouched, classifies every record with no `Tag`, and
reports every successfully-parsed link with the empty tag field. -/
theorem non_check_mode_no_fetch
    (parse0 : String → String → String → Except String (String × Option String))
    (root : String) (prefixes : List String) (silence : List Tag)
    (ts : List (String × Nat × String)) (cache : List (String × Targets)) :
    ((run ⟨none, parse0, root, prefixes, silence⟩ cache ts).fetched = [])
    ∧ ((run ⟨none, parse0, root, prefixes, silence⟩ cache ts).cache = cache)
    ∧ ((run ⟨none, parse0, root, prefixes, silence⟩ cache ts).records =
        (ts.filter (fun u => parseOk ⟨none, parse0, root, prefixes, silence⟩ u)).map
          (fun u => ⟨u.1, u.2.1, none, u.2.2⟩))
    ∧ ((run ⟨none, parse0, root, prefixes, silence⟩ cache ts).reports =
        (ts.filter (fun u => parseOk ⟨none, parse0, root, prefixes, silence⟩ u)).map
          (fun u => formatRecord ⟨u.1, u.2.1, none, u.2.2⟩)) := by
  induction ts generalizing cache with
  | nil => simp [run]
  | cons t ts ih =>
    obtain ⟨path, n, raw⟩ := t
    obtain ⟨i1, i2, i3, i4⟩ := ih cache
    cases hp : parse0 raw path root with
    | error e =>
      rw [run_cons]
      constructor
      · simpa [stepTriple, hp] using i1
      · constructor
        · simpa [stepTriple, hp] using i2
        · constructor
          · simpa [stepTriple, hp, List.filter_cons, parseOk] using i3
          · simpa [stepTriple, hp, List.filter_cons, parseOk] using i4
    | ok be =>
      obtain ⟨base, fragment⟩ := be
      rw [run_cons]
      constructor
      · simpa [stepTriple, hp] using i1
      · constructor
        · simpa [stepTriple, hp] using i2
        · constructor
          · simpa [stepTriple, hp, List.filter_cons, parseOk, emit,
              mutedRecord] using i3
          · simpa [stepTriple, hp, List.filter_cons, parseOk, emit,
              mutedRecord] using i4

/-! ## C8: a parse failure is logged and the link dropped -/

/-- C8: when a raw link fails `Link::parse_with_root`, its triple
contributes exactly one diagnostic line, no report line, no fetch and no
record, and the rest of the run proceeds exactly as if the triple were
absent. -/
theorem parse_failure_logged_and_dropped (ctx : Ctx)
    (cache : List (String × Targets)) (path : String) (n : Nat)
    (raw e : String) (ts : List (String × Nat × String))
    (h : ctx.parse raw path ctx.root = .error e) :
    run ctx cache ((path, n, raw) :: ts) =
      ⟨(run ctx cache ts).reports,
       (path ++ ":" ++ Nat.repr n ++ ": " ++ e ++ ": " ++ raw) ::
          (run ctx cache ts).diags,
       (run ctx cache ts).fetched,
       (run ctx cache ts).cache,
       (run ctx cache ts).records⟩ := by
  rw [run_cons]
  simp [stepTriple, h]

/-- Witness for C8 at a concrete always-failing parse oracle. -/
theorem parse_failure_logged_and_dropped_witness :
    run ⟨none, fun _ _ _ => Except.error "bad", "/", [], []⟩ []
        [("p", 1, "l")] = ⟨[], ["p:1: bad: l"], [], [], []⟩ := by
  have h := parse_failure_logged_and_dropped
    ⟨none, fun _ _ _ => Except.error "bad", "/", [], []⟩ [] "p" 1 "l" "bad" []
    rfl
  exact h.trans (by decide)

end Linky
